import Mathlib

/-!
Verification of the compliance_sentinal pipeline core.

This file shallowly embeds the deterministic core of the repository:
the numerical-discrepancy detector and match classifier of
`compliance_checker.py`, the correction parser/severity logic of
`correction_generator.py`, and the three line-oriented segmenter variants
(`chunk_regulations.py`, `chunking_script.py`, `pdf_processor.py`).

Python strings are modelled as `List Char`; machine floats that only ever
hold values parsed from short decimal literals are modelled as `ℚ`
(all values reached by the claims are exactly representable, and the
float repr of such values is their normalized decimal spelling).
Fallible operations (dict subscripts that can raise `KeyError`) return
`Option`.  The four fixed regular expressions of
`ComplianceChecker.number_patterns` are embedded as deterministic
matchers; for each of them greedy max-munch matching coincides with
backtracking regex semantics, because no alternative of a group can begin
where another leaves off (the alternation branches of each group differ in
their first two characters, and no branch begins with whitespace or a
digit that a preceding `\s*` or `\d+` could give back).
-/

namespace ComplianceSentinel

/-! ## Python string primitives -/

/-- Python's default whitespace set for `str.strip`, `str.split` and `\s`
(ASCII portion; the documents never exercise the exotic Unicode spaces). -/
def pyIsSpace (c : Char) : Bool :=
  c == ' ' || c == '\t' || c == '\n' || c == '\r' || c == '\x0b' || c == '\x0c'

/-- ASCII decimal digit, matching `\d` on the inputs in scope. -/

def isDigitCh (c : Char) : Bool := '0' ≤ c && c ≤ '9'

/-- Python `str.lower` restricted to ASCII and the Cyrillic block actually
used by the patterns (А..Я and Ё). -/

def pyLowerChar (c : Char) : Char :=
  if 'A' ≤ c && c ≤ 'Z' then Char.ofNat (c.toNat + 32)
  else if 0x410 ≤ c.toNat && c.toNat ≤ 0x42F then Char.ofNat (c.toNat + 0x20)
  else if c.toNat = 0x401 then Char.ofNat 0x451
  else c

def pyLower (l : List Char) : List Char := l.map pyLowerChar

/-- Python `str.upper` for the ASCII concept names (`"days"` etc.). -/

def pyUpperChar (c : Char) : Char :=
  if 'a' ≤ c && c ≤ 'z' then Char.ofNat (c.toNat - 32) else c

def pyUpper (s : String) : String := String.mk (s.toList.map pyUpperChar)

/-- Digit list to natural number, as `int(<digits>)`. -/

def digitsToNat (l : List Char) : ℕ :=
  l.foldl (fun a c => a * 10 + (c.toNat - '0'.toNat)) 0

/-- Python `float(s)` on the strings producible by the captures `(\d+)`,
`(\d+(?:\.\d+)?)` and `([\d.]+)`: optional integer digits, optional dot,
optional fraction digits, at least one digit overall, nothing else.
Returns `none` exactly when `float` raises `ValueError`. -/

def parseFloatChars (l : List Char) : Option ℚ :=
  let ip := l.takeWhile isDigitCh
  let r := l.drop ip.length
  match r with
  | [] => if ip.isEmpty then none else some (digitsToNat ip)
  | c :: r2 =>
    if c = '.' then
      let fp := r2.takeWhile isDigitCh
      if (r2.drop fp.length).isEmpty then
        if ip.isEmpty && fp.isEmpty then none
        else some ((digitsToNat ip : ℚ) + (digitsToNat fp : ℚ) / (10 ^ fp.length : ℚ))
      else none
    else none

def parseFloat (s : String) : Option ℚ := parseFloatChars s.toList

/-- Decimal expansion of the fractional part `rem / den` (the values in
scope are parsed from decimal literals, so the expansion terminates and the
fuel of 30 digits is never exhausted). -/

def fracDigits : ℕ → ℕ → ℕ → List Char
  | 0, _, _ => []
  | _ + 1, 0, _ => []
  | fuel + 1, rem, den =>
    Char.ofNat ('0'.toNat + rem * 10 / den) :: fracDigits fuel (rem * 10 % den) den

/-- Python `str(float(x))` for the short exact decimals in scope: the
shortest round-tripping repr of such a float is its normalized decimal
spelling, with `.0` appended to integral values. -/

def formatVal (q : ℚ) : String :=
  let n := q.num.natAbs
  let den := q.den
  let sign := if q.num < 0 then "-" else ""
  let ip := n / den
  let rem := n % den
  if rem = 0 then sign ++ toString ip ++ ".0"
  else sign ++ toString ip ++ "." ++ String.mk (fracDigits 30 rem den)

/-! ## The `number_patterns` regular expressions of `ComplianceChecker`

Each pattern has the shape
`(<number>)\s*(?:<modifier words>)?\s*(?:<unit words>)`, where the
modifier group is present only for `days`. -/

/-- Ordered alternation: try each branch as a literal prefix, first match
wins (for these branch sets at most one branch can match at a position). -/

def matchAlt (alts : List (List Char)) (l : List Char) : Option (List Char) :=
  match alts with
  | [] => none
  | a :: rest => if a.isPrefixOf l then some (l.drop a.length) else matchAlt rest l

/-- The capture group: `(\d+)` when `withFrac = false`, `(\d+(?:\.\d+)?)`
when `withFrac = true`.  Returns the captured characters and the rest. -/

def matchCapture (withFrac : Bool) (l : List Char) : Option (List Char × List Char) :=
  let ds := l.takeWhile isDigitCh
  if ds.isEmpty then none
  else
    let r := l.drop ds.length
    if withFrac then
      match r with
      | c :: r2 =>
        if c = '.' then
          let fs := r2.takeWhile isDigitCh
          if fs.isEmpty then some (ds, r)
          else some (ds ++ '.' :: fs, r2.drop fs.length)
        else some (ds, r)
      | [] => some (ds, r)
    else some (ds, r)

/-- The `\s*(?:mods)?\s*(?:units)` after the capture.  If a modifier matches
but no unit follows it, regex backtracking retries with the empty
modifier, i.e. the units directly after the first `\s*`. -/

def matchUnitTail (mods units : List (List Char)) (l : List Char) : Option (List Char) :=
  let afterWs := l.dropWhile pyIsSpace
  match matchAlt mods afterWs with
  | some r =>
    match matchAlt units (r.dropWhile pyIsSpace) with
    | some r2 => some r2
    | none => matchAlt units afterWs
  | none => matchAlt units afterWs

/-- One attempted match of a full number pattern at the head of `l`. -/

def matchPatternAt (withFrac : Bool) (mods units : List (List Char)) (l : List Char) :
    Option (List Char × List Char) :=
  (matchCapture withFrac l).bind fun pr =>
    (matchUnitTail mods units pr.2).map fun rest => (pr.1, rest)

/-- The `re.findall` scan: attempt a match at every position, resuming after
the end of each (always non-empty) match.  Fuel is the remaining length;
every step consumes at least one character, so it never runs out. -/

def findallNum (withFrac : Bool) (mods units : List (List Char)) :
    ℕ → List Char → List (List Char)
  | 0, _ => []
  | _ + 1, [] => []
  | fuel + 1, c :: cs =>
    match matchPatternAt withFrac mods units (c :: cs) with
    | some (cap, rest) => cap :: findallNum withFrac mods units fuel rest
    | none => findallNum withFrac mods units fuel cs

def findallPattern (withFrac : Bool) (mods units : List (List Char)) (l : List Char) :
    List (List Char) :=
  findallNum withFrac mods units l.length l

structure NumPattern where
  concept : String
  withFrac : Bool
  mods : List (List Char)
  units : List (List Char)

def daysMods : List (List Char) :=
  ["календар".toList, "kalendar".toList, "ish".toList, "иш".toList]

def daysUnits : List (List Char) := ["kun".toList, "кун".toList, "day".toList]

def percentUnits : List (List Char) :=
  ["%".toList, "процент".toList, "foiz".toList, "фоиз".toList]

def monthsUnits : List (List Char) :=
  ["oy".toList, "ой".toList, "месяц".toList, "month".toList]

def yearsUnits : List (List Char) :=
  ["yil".toList, "йил".toList, "год".toList, "year".toList]

/-- The `ComplianceChecker.number_patterns`, in dict insertion order. -/

def number_patterns : List NumPattern :=
  [⟨"days", false, daysMods, daysUnits⟩,
   ⟨"percent", true, [], percentUnits⟩,
   ⟨"months", false, [], monthsUnits⟩,
   ⟨"years", false, [], yearsUnits⟩]

/-- The `re.findall(pattern, text.lower())` for one category. -/

def extractNums (p : NumPattern) (text : String) : List (List Char) :=
  findallPattern p.withFrac p.mods p.units (pyLower text.toList)

/-- One issue entry, as the f-string in `_check_numerical_discrepancy`. -/

def mkIssue (concept : String) (v1 v2 : ℚ) : String :=
  pyUpper concept ++ ": Uploaded says " ++ formatVal v1 ++ ", reference says " ++ formatVal v2

/-- The comprehension `[float(n) for n in nums]`: all-or-nothing, an
exception anywhere yields `none`. -/

def mapFloat : List (List Char) → Option (List ℚ)
  | [] => some []
  | x :: xs =>
    match parseFloatChars x, mapFloat xs with
    | some v, some vs => some (v :: vs)
    | _, _ => none

/-- The per-category body of the loop in `_check_numerical_discrepancy`:
if both texts have matches, convert all captures with `float` (an
exception drops the whole category, `except: pass`) and append one entry
per differing pair of the cross product. -/

def conceptIssues (p : NumPattern) (text1 text2 : String) : List String :=
  let nums1 := extractNums p text1
  let nums2 := extractNums p text2
  if nums1.isEmpty || nums2.isEmpty then []
  else
    match mapFloat nums1, mapFloat nums2 with
    | some vals1, some vals2 =>
      vals1.flatMap fun v1 =>
        vals2.filterMap fun v2 => if v1 ≠ v2 then some (mkIssue p.concept v1 v2) else none
    | _, _ => []

/-- Model of `ComplianceChecker._check_numerical_discrepancy`. -/

def check_numerical_discrepancy (text1 text2 : String) : Option String :=
  let issues := number_patterns.flatMap fun p => conceptIssues p text1 text2
  if issues.isEmpty then none else some (String.intercalate " | " issues)

/-- The Numerical Discrepancy Detector as §4.4 of the spec words it:
extract all matching numeric tokens per category from both texts; if both
texts contain at least one match for a category, report one entry per
differing pair of the cross product; concatenate with `" | "`; null if no
category yields a mismatch. -/

def spec_detect (text1 text2 : String) : Option String :=
  let entries := number_patterns.flatMap fun p =>
    let nums1 := extractNums p text1
    let nums2 := extractNums p text2
    if nums1.isEmpty || nums2.isEmpty then []
    else
      (nums1.filterMap parseFloatChars).flatMap fun a =>
        (nums2.filterMap parseFloatChars).filterMap fun b =>
          if a ≠ b then some (mkIssue p.concept a b) else none
  if entries.isEmpty then none else some (String.intercalate " | " entries)

/-- Shape of every string captured by a number pattern: digits, optionally
followed by a dot and more digits. -/

def goodCapture (cap : List Char) : Prop :=
  (cap ≠ [] ∧ ∀ c ∈ cap, isDigitCh c) ∨
  ∃ ds fs, ds ≠ [] ∧ fs ≠ [] ∧ (∀ c ∈ ds, isDigitCh c) ∧ (∀ c ∈ fs, isDigitCh c) ∧
    cap = ds ++ '.' :: fs

def pyTruthy : Option String → Bool
  | none => false
  | some s => if s = "" then false else true

/-- Python `round(x, nd)`: round half to even on the exact value. -/

def roundHalfEven (q : ℚ) : ℤ :=
  let f := ⌊q⌋
  let frac := q - f
  if frac < 1 / 2 then f
  else if 1 / 2 < frac then f + 1
  else if f % 2 = 0 then f else f + 1

def pyRound (q : ℚ) (nd : ℕ) : ℚ := (roundHalfEven (q * 10 ^ nd) : ℚ) / 10 ^ nd

/-- Model of `s[:200] + "..." if len(s) > 200 else s`. -/

def truncate200 (s : String) : String :=
  if 200 < s.toList.length then String.mk (s.toList.take 200) ++ "..." else s

structure Chunk where
  id : String
  text : String
deriving DecidableEq

/-- One retrieved candidate: its stored document text (`None` models a
null corpus entry) and its distance. -/

structure Candidate where
  doc : Option String
  distance : ℚ
deriving DecidableEq

structure MatchInfo where
  uploaded_chunk_id : String
  uploaded_text : String
  matched_text : String
  similarity_score : ℚ
  distance : ℚ
  potential_issue : Option String
deriving DecidableEq

/-- The `match_info` dict built at lines 132-145: `potential_issue`
starts as `None` and is overwritten only when the detector's result is
truthy. -/

def mkMatchInfo (ch : Chunk) (t : String) (d : ℚ) : MatchInfo :=
  let issue := check_numerical_discrepancy ch.text t
  { uploaded_chunk_id := ch.id
    uploaded_text := truncate200 ch.text
    matched_text := truncate200 t
    similarity_score := pyRound (1 - d) 3
    distance := pyRound d 3
    potential_issue := if pyTruthy issue then issue else none }

structure CheckResults where
  strong_matches : List MatchInfo  -- dict key "matches" in the source
  weak_matches : List MatchInfo
  violations : List MatchInfo
deriving DecidableEq

def emptyResults : CheckResults := ⟨[], [], []⟩

/-- Loop body over one retrieved candidate (lines 123-154): skip `None`
text, then bucket by distance; a far candidate is kept as a violation
only if its `potential_issue` is truthy. -/

def classifyOne (ch : Chunk) (cand : Candidate) (r : CheckResults) : CheckResults :=
  match cand.doc with
  | none => r
  | some t =>
    let mi := mkMatchInfo ch t cand.distance
    if cand.distance < 3 / 10 then { r with strong_matches := r.strong_matches ++ [mi] }
    else if cand.distance < 1 / 2 then { r with weak_matches := r.weak_matches ++ [mi] }
    else if pyTruthy mi.potential_issue then { r with violations := r.violations ++ [mi] }
    else r

/-- The inner `for j in range(...)` loop over one chunk's candidates. -/

def classifyCands (ch : Chunk) (cands : List Candidate) (r : CheckResults) : CheckResults :=
  cands.foldl (fun acc c => classifyOne ch c acc) r

/-- The denominator `total` of `_calculate_compliance_score`. -/

def scoreDenom (r : CheckResults) : ℕ :=
  r.strong_matches.length + r.weak_matches.length + r.violations.length

/-- Model of `ComplianceChecker._calculate_compliance_score`. -/

def calculate_compliance_score (r : CheckResults) : ℚ :=
  if scoreDenom r = 0 then 0
  else
    let score := ((r.strong_matches.length : ℚ) * 1 + (r.weak_matches.length : ℚ) * (1 / 2)) /
      (scoreDenom r : ℚ)
    pyRound (score * 100) 2

structure Summary where
  total_strong_matches : ℕ
  total_weak_matches : ℕ
  total_violations : ℕ
  compliance_score : ℚ
deriving DecidableEq

def mkSummary (r : CheckResults) : Summary :=
  ⟨r.strong_matches.length, r.weak_matches.length, r.violations.length,
    calculate_compliance_score r⟩

/-- Result of one sub-check: either the `{"error": ...}` dict or the
results dict together with its `summary`. -/

inductive CheckOutcome where
  | err (msg : String)
  | ok (results : CheckResults) (summary : Summary)
deriving DecidableEq

/-- The `check_against_regulations`: the retrieval collaborator is the
`query` parameter (3 ranked candidates per chunk). -/

def check_against_regulations (hasCollection : Bool) (chunks : List Chunk)
    (query : Chunk → List Candidate) : CheckOutcome :=
  if hasCollection = false then .err "Regulations collection not available"
  else
    let r := chunks.foldl (fun acc ch => classifyCands ch (query ch) acc) emptyResults
    .ok r (mkSummary r)

/-- The `check_against_policies` (same loop, different collection/message). -/

def check_against_policies (hasCollection : Bool) (chunks : List Chunk)
    (query : Chunk → List Candidate) : CheckOutcome :=
  if hasCollection = false then .err "Bank policies collection not available"
  else
    let r := chunks.foldl (fun acc ch => classifyCands ch (query ch) acc) emptyResults
    .ok r (mkSummary r)

structure ReportSide where
  score : ℚ
  total_violations : ℕ
  violations : List MatchInfo
deriving DecidableEq

structure Report where
  overall_status : String
  overall_compliance_score : ℚ
  regulation_compliance : ReportSide
  policy_compliance : ReportSide
  regulation_matches : ℕ
  regulation_weak_matches : ℕ
  policy_matches : ℕ
  policy_weak_matches : ℕ
deriving DecidableEq

/-- The `generate_report`: its first statement subscripts
`regulation_results['summary']` (then `policy_results['summary']`), which
raises `KeyError` on the `{"error": ...}` dict of an unavailable
collection; the raised exception is modelled as `none`. -/

def generate_report : CheckOutcome → CheckOutcome → Option Report
  | .ok r1 s1, .ok r2 s2 =>
    let overall := (s1.compliance_score + s2.compliance_score) / 2
    let status := if 80 ≤ overall then "PASS" else if 60 ≤ overall then "WARNING" else "FAIL"
    some
      { overall_status := status
        overall_compliance_score := pyRound overall 2
        regulation_compliance := ⟨s1.compliance_score, s1.total_violations, r1.violations⟩
        policy_compliance := ⟨s2.compliance_score, s2.total_violations, r2.violations⟩
        regulation_matches := r1.strong_matches.length
        regulation_weak_matches := r1.weak_matches.length
        policy_matches := r2.strong_matches.length
        policy_weak_matches := r2.weak_matches.length }
  | _, _ => none

def spec_compliance_score (s w v : ℕ) : ℚ :=
  if s + w + v = 0 then 0
  else pyRound (100 * ((s : ℚ) * 1 + (w : ℚ) * (1 / 2)) / ((s : ℚ) + (w : ℚ) + (v : ℚ))) 2

/-- C8: `_calculate_compliance_score` computes the spec's formula over
the three bucket counts. -/

def stripChars (l : List Char) : List Char :=
  ((l.dropWhile pyIsSpace).reverse.dropWhile pyIsSpace).reverse

def pyStrip (s : String) : String := String.mk (stripChars s.toList)

/-- Python `str.split(sep)` for a one-character separator (keeps empty
pieces, like Python with an explicit separator). -/

def splitOnCh (sep : Char) : List Char → List (List Char)
  | [] => [[]]
  | c :: cs =>
    if c = sep then [] :: splitOnCh sep cs
    else
      match splitOnCh sep cs with
      | [] => [[c]]
      | w :: ws => (c :: w) :: ws

/-- The `\w` on the ASCII alphabet the issue strings use. -/

def isWordCh (c : Char) : Bool := c.isAlpha || isDigitCh c || c == '_'

/-- Model of `[\d.]`. -/

def isDigitDot (c : Char) : Bool := isDigitCh c || c == '.'

/-- Consume a literal prefix. -/

def dropLit : List Char → List Char → Option (List Char)
  | [], l => some l
  | _ :: _, [] => none
  | p :: ps, c :: cs => if c = p then dropLit ps cs else none

/-- The `re.match(r'(\w+):\s*Uploaded says ([\d.]+),\s*reference says ([\d.]+)', s)`
(prefix match; trailing text is allowed).  Returns the three captures. -/

def parseIssueTemplate (s : String) : Option (String × String × String) :=
  let l := s.toList
  let w := l.takeWhile isWordCh
  if w.isEmpty then none
  else
    match l.drop w.length with
    | c :: r2 =>
      if c = ':' then
        match dropLit "Uploaded says ".toList (r2.dropWhile pyIsSpace) with
        | none => none
        | some r4 =>
          let u := r4.takeWhile isDigitDot
          if u.isEmpty then none
          else
            match r4.drop u.length with
            | c2 :: r6 =>
              if c2 = ',' then
                match dropLit "reference says ".toList (r6.dropWhile pyIsSpace) with
                | none => none
                | some r8 =>
                  let v := r8.takeWhile isDigitDot
                  if v.isEmpty then none
                  else some (String.mk w, String.mk u, String.mk v)
              else none
            | [] => none
      else none
    | [] => none

structure CorrectionItem where
  field : String
  current_value : String
  correct_value : String
  current_phrase : String
  corrected_phrase : String
  severity : String
deriving DecidableEq

/-- Model of `CorrectionGenerator._get_unit_name`. -/

def get_unit_name (value_type : String) : String :=
  if value_type = "days" then "kalendar kun"
  else if value_type = "percent" then "%"
  else if value_type = "months" then "oy"
  else if value_type = "years" then "yil"
  else ""

/-- The `CorrectionGenerator._determine_severity`: the `try` block computes
`abs(float(current) - float(correct))`; a `ValueError` lands in the
`except` arm returning MEDIUM. -/

def determine_severity (value_type current correct : String) : String :=
  match parseFloat current, parseFloat correct with
  | some a, some b =>
    let diff := |a - b|
    if value_type = "percent" then
      if 5 ≤ diff then "CRITICAL" else if 1 ≤ diff then "HIGH" else "MEDIUM"
    else if value_type = "days" then
      if 5 ≤ diff then "HIGH" else "MEDIUM"
    else "MEDIUM"
  | _, _ => "MEDIUM"

/-- Python `x or default` on a nullable string (falsy = None or ""). -/

def pyOrStr (x : Option String) (dflt : String) : String :=
  match x with
  | some s => if s = "" then dflt else s
  | none => dflt

def pyOrOpt (x y : Option String) : Option String :=
  match x with
  | some s => if s = "" then y else some s
  | none => y

/-- The signature of `_find_phrase_with_value`: it runs `re.search` with
a pattern interpolated from the value at run time and returns the
stripped surrounding phrase or `None`.  It is passed in as a parameter of
the embedding; no claim in scope depends on its output. -/

def FindPhrase := String → String → String → Option String

def itemKey (c : CorrectionItem) : String × String × String :=
  (c.field, c.current_value, c.correct_value)

/-- The `seen`-set deduplication at the end of `_parse_issue_description`
(local to one call, i.e. to one violation). -/

def dedupStep (st : List (String × String × String) × List CorrectionItem)
    (c : CorrectionItem) : List (String × String × String) × List CorrectionItem :=
  if itemKey c ∈ st.1 then st else (st.1 ++ [itemKey c], st.2 ++ [c])

def dedupCorrections (cs : List CorrectionItem) : List CorrectionItem :=
  (cs.foldl dedupStep ([], [])).2

/-- Model of `CorrectionGenerator._parse_issue_description`. -/

def parse_issue_description (fp : FindPhrase) (issue uploaded_text reference_text : String) :
    List CorrectionItem :=
  let issues := (splitOnCh '|' issue.toList).map (fun l => String.mk (stripChars l))
  let corrections := issues.foldl (fun acc single_issue =>
    match parseIssueTemplate single_issue with
    | none => acc
    | some (ty, u, c) =>
      let value_type := String.mk (pyLower ty.toList)
      let keep :=
        match parseFloat u, parseFloat c with
        | some a, some b => if 100 < |a - b| then false else true
        | _, _ => true
      if keep then
        acc ++ [{ field := value_type
                  current_value := u
                  correct_value := c
                  current_phrase :=
                    pyOrStr (fp uploaded_text u value_type) (u ++ " " ++ get_unit_name value_type)
                  corrected_phrase :=
                    pyOrStr (fp reference_text c value_type) (c ++ " " ++ get_unit_name value_type)
                  severity := determine_severity value_type u c }]
      else acc) []
  dedupCorrections corrections

/-- Capture loop of `_extract_section_number`'s pattern
`^(\d+\.(?:\d+\.)*\d*)` after the initial `\d+.` (fuel = list length). -/

def sectionTail : ℕ → List Char → List Char
  | 0, _ => []
  | fuel + 1, l =>
    let ds := l.takeWhile isDigitCh
    match l.drop ds.length with
    | c :: r2 => if c = '.' ∧ ds ≠ [] then ds ++ '.' :: sectionTail fuel r2 else ds
    | [] => ds

/-- Model of `CorrectionGenerator._extract_section_number`. -/

def extract_section_number (text : String) : String :=
  let l := stripChars text.toList
  let ds := l.takeWhile isDigitCh
  match l.drop ds.length with
  | c :: r2 =>
    if c = '.' ∧ ds ≠ [] then String.mk (ds ++ '.' :: sectionTail r2.length r2) else "unknown"
  | [] => "unknown"

/-- One violation dict as consumed by `extract_correct_value`; `none`
models an absent key. -/

structure Violation where
  uploaded_text : String
  matched_regulation : Option String
  matched_policy : Option String
  regulation_source : Option String
  policy_source : Option String
  potential_issue : Option String
deriving DecidableEq

structure Correction where
  section_id : String
  violation_type : String
  source_document : Option String
  current_text : String
  issue_description : String
  corrections : List CorrectionItem
deriving DecidableEq

/-- Model of `CorrectionGenerator.extract_correct_value`. -/

def extract_correct_value (fp : FindPhrase) (v : Violation) : Correction :=
  let uploaded_text := v.uploaded_text
  let matched_text := pyOrStr v.matched_regulation (v.matched_policy.getD "")
  let potential_issue := v.potential_issue.getD ""
  { section_id := extract_section_number uploaded_text
    violation_type := if v.matched_regulation.isSome then "regulation" else "policy"
    source_document := pyOrOpt v.regulation_source v.policy_source
    current_text := uploaded_text
    issue_description := potential_issue
    corrections :=
      if potential_issue ≠ "" then
        parse_issue_description fp potential_issue uploaded_text matched_text
      else [] }

structure CorrectionEntry where
  entry_section : String  -- dict key "section" in the source (keyword in Lean)
  violation_type : String
  source_document : Option String
  field : String
  current_value : String
  correct_value : String
  current_phrase : String
  corrected_phrase : String
  action_required : String
deriving DecidableEq

structure CorrectionReport where
  overall_status : String
  overall_compliance_score : ℚ
  critical_corrections : List CorrectionEntry
  high_priority_corrections : List CorrectionEntry
  medium_priority_corrections : List CorrectionEntry
  critical_count : ℕ
  high_count : ℕ
  medium_count : ℕ
  total_corrections_needed : ℕ
deriving DecidableEq

def mkEntry (corr : Correction) (c : CorrectionItem) : CorrectionEntry :=
  { entry_section := corr.section_id
    violation_type := corr.violation_type
    source_document := corr.source_document
    field := c.field
    current_value := c.current_value ++ " " ++ get_unit_name c.field
    correct_value := c.correct_value ++ " " ++ get_unit_name c.field
    current_phrase := c.current_phrase
    corrected_phrase := c.corrected_phrase
    action_required := "Change '" ++ c.current_value ++ "' to '" ++ c.correct_value ++ "'" }

def categorizeStep (corr : Correction) (rp : CorrectionReport) (c : CorrectionItem) :
    CorrectionReport :=
  let e := mkEntry corr c
  if c.severity = "CRITICAL" then
    { rp with critical_corrections := rp.critical_corrections ++ [e]
              critical_count := rp.critical_count + 1 }
  else if c.severity = "HIGH" then
    { rp with high_priority_corrections := rp.high_priority_corrections ++ [e]
              high_count := rp.high_count + 1 }
  else
    { rp with medium_priority_corrections := rp.medium_priority_corrections ++ [e]
              medium_count := rp.medium_count + 1 }

/-- Model of `CorrectionGenerator._categorize_correction`. -/

def categorize_correction (corr : Correction) (rp : CorrectionReport) : CorrectionReport :=
  corr.corrections.foldl (categorizeStep corr) rp

/-- The input compliance report as read by `generate_correction_report`. -/

structure ComplianceReportIn where
  overall_status : String
  overall_compliance_score : ℚ
  reg_violations : List Violation
  policy_violations : List Violation
deriving DecidableEq

/-- Model of `CorrectionGenerator.generate_correction_report`. -/

def generate_correction_report (fp : FindPhrase) (cr : ComplianceReportIn) :
    CorrectionReport :=
  let rep0 : CorrectionReport :=
    { overall_status := cr.overall_status
      overall_compliance_score := cr.overall_compliance_score
      critical_corrections := []
      high_priority_corrections := []
      medium_priority_corrections := []
      critical_count := 0
      high_count := 0
      medium_count := 0
      total_corrections_needed := 0 }
  let rep1 := cr.reg_violations.foldl
    (fun rp v => categorize_correction (extract_correct_value fp v) rp) rep0
  let rep2 := cr.policy_violations.foldl
    (fun rp v => categorize_correction (extract_correct_value fp v) rp) rep1
  { rep2 with
      total_corrections_needed := rep2.critical_count + rep2.high_count + rep2.medium_count }

/-- C7: `_determine_severity` follows the deterministic table on every
pair of parseable values: percent — `|diff| ≥ 5` CRITICAL, `1 ≤ |diff| < 5`
HIGH, else MEDIUM; days — `|diff| ≥ 5` HIGH (so a diff of exactly 5 is
HIGH), else MEDIUM; months and years — always MEDIUM. -/

def fpNone : FindPhrase := fun _ _ _ => none

def dupViolation : Violation :=
  { uploaded_text := "7.1. Foiz stavkasi 85 % etib belgilanadi"
    matched_regulation := some "Foiz stavkasi 80 % dan oshmasligi kerak"
    matched_policy := none
    regulation_source := some "reg.pdf"
    policy_source := none
    potential_issue := some "PERCENT: Uploaded says 85.0, reference says 80.0" }

def dupReport : ComplianceReportIn :=
  { overall_status := "FAIL"
    overall_compliance_score := 0
    reg_violations := [dupViolation, dupViolation]
    policy_violations := [] }

/-- C2 (counterexample to the claim as stated): a report with two
separate violations both yielding the triple
`(percent, "85.0", "80.0")` produces TWO correction entries and a total
count of 2 — the triple is not collapsed across violations. -/

def countsOf (rp : CorrectionReport) : ℕ :=
  rp.critical_count + rp.high_count + rp.medium_count

def leadWsCount (l : List Char) : ℕ := (l.takeWhile pyIsSpace).length

/-- Model of `[А-ЯЁA-Z]`. -/

def isCapRC (c : Char) : Bool :=
  ('A' ≤ c && c ≤ 'Z') || (0x410 ≤ c.toNat && c.toNat ≤ 0x42F) || c.toNat = 0x401

/-- The `[А-ЯЁA-ZĞŞÇÖÜIİ]` (`pdf_processor` adds the Turkish capitals). -/

def isCapPdf (c : Char) : Bool :=
  isCapRC c || c.toNat = 0x11E || c.toNat = 0x15E || c.toNat = 0xC7 ||
    c.toNat = 0xD6 || c.toNat = 0xDC || c.toNat = 0x130

/-- The `\s*` then one capital, with at least one whitespace already seen
(the `\s+[А-ЯЁA-Z]` tail of the header pattern). -/

def wsThenCap : List Char → Bool
  | [] => false
  | c :: cs => if pyIsSpace c then wsThenCap cs else isCapRC c

mutual

/-- Position between digit groups of `\d+\.(?:\d+\.)*\s+[А-ЯЁA-Z]`:
either another `\d+\.` group or the `\s+[CAP]` tail.  Greedy matching is
faithful: giving an iteration back leaves the position on a digit or a
dot, where `\s+` cannot match. -/
def headerTail : List Char → Bool
  | [] => false
  | c :: cs =>
    if isDigitCh c then headerAfterDigit cs
    else if pyIsSpace c then wsThenCap cs
    else false

/-- Inside a `\d+` run, expecting more digits and then `.`. -/
def headerAfterDigit : List Char → Bool
  | [] => false
  | c :: cs =>
    if isDigitCh c then headerAfterDigit cs
    else if c = '.' then headerTail cs
    else false

end

/-- The `bool(re.match(r'^\s*\d+\.(?:\d+\.)*\s+[А-ЯЁA-Z]', s))` — the section
header pattern of `chunk_regulations.py` and `chunking_script.py`. -/
def isSectionHeader (l : List Char) : Bool :=
  match l.dropWhile pyIsSpace with
  | c :: cs => isDigitCh c && headerAfterDigit cs
  | [] => false

/-- After `\d+`: more digits, then a dot.  (`(?:\d+\.)*` adds nothing to
matching success, so `bool(match)` only needs `\s*\d+\.`.) -/

def digitsThenDot : List Char → Bool
  | [] => false
  | c :: cs => if isDigitCh c then digitsThenDot cs else c = '.'

/-- The `bool(re.match(r'^\s*\d+\.(?:\d+\.)*', s))` — the section-number
pattern of `pdf_processor.chunk_text`. -/

def startsWithNumLabel (l : List Char) : Bool :=
  match l.dropWhile pyIsSpace with
  | c :: cs => isDigitCh c && digitsThenDot cs
  | [] => false

/-- Model of `line.endswith(('.', ';'))`. -/

def endsWithPS (l : List Char) : Bool :=
  match l.getLast? with
  | some c => c = '.' || c = ';'
  | none => false

/-- Model of `line.rstrip()`. -/

def stripTrailing (l : List Char) : List Char := (l.reverse.dropWhile pyIsSpace).reverse

mutual

/-- The `len(s.split())`: the number of maximal non-whitespace runs. -/
def wordCount : List Char → ℕ
  | [] => 0
  | c :: cs => if pyIsSpace c then wordCount cs else 1 + wcInWord cs

/-- Word counting while inside a word. -/
def wcInWord : List Char → ℕ
  | [] => 0
  | c :: cs => if pyIsSpace c then wordCount cs else wcInWord cs

end

/-- Model of `' '.join(lines)`. -/
def joinSp : List (List Char) → List Char
  | [] => []
  | [l] => l
  | l :: ls => l ++ ' ' :: joinSp ls

/-- Model of `'\n'.join(lines)`. -/

def joinNl : List (List Char) → List Char
  | [] => []
  | [l] => l
  | l :: ls => l ++ '\n' :: joinNl ls

/-- The flush of all three variants: `' '.join(current).strip()`, kept
iff `len(text.split()) >= min_words` (on an empty accumulator nothing is
emitted). -/

def flushChunk (minWords : ℕ) (chunks current : List (List Char)) : List (List Char) :=
  if current.isEmpty then chunks
  else
    let text := stripChars (joinSp current)
    if minWords ≤ wordCount text then chunks ++ [text] else chunks

/-- Head-of-line capital tests (`^[А-ЯЁA-Z]`, `^[А-ЯЁA-ZĞŞÇÖÜIİ]`). -/

def headIsCapRC : List Char → Bool
  | c :: _ => isCapRC c
  | [] => false

def headIsCapPdf : List Char → Bool
  | c :: _ => isCapPdf c
  | [] => false

/-- The `current_chunk[-1].rstrip().endswith(('.', ';'))` guarded by
`if current_chunk:`. -/

def prevEndsPS (current : List (List Char)) : Bool :=
  match current.getLast? with
  | some last => endsWithPS (stripTrailing last)
  | none => false

structure RegState where
  chunks : List (List Char)
  current : List (List Char)
  force_new_chunk : Bool

/-- Split condition of the regulation chunker: forced split or 2+ leading
spaces, with a non-empty open chunk. -/

def regSplitCond (st : RegState) (line : List Char) : Bool :=
  (st.force_new_chunk || decide (2 ≤ leadWsCount line)) && !st.current.isEmpty

/-- One loop iteration of `RegulationChunker.split_into_chunks`: a header
line only flushes and resets the forced-split flag; otherwise the line is
appended after an optional flush (forced split or 2+ leading spaces, with
a non-empty open chunk). -/

def regStep (minWords : ℕ) (st : RegState) (line : List Char) : RegState :=
  let ls := stripChars line
  if ls.isEmpty then st
  else if isSectionHeader ls then
    ⟨flushChunk minWords st.chunks st.current, [], false⟩
  else
    ⟨if regSplitCond st line then flushChunk minWords st.chunks st.current else st.chunks,
      (if regSplitCond st line then [] else st.current) ++ [ls],
      endsWithPS ls⟩

/-- The `RegulationChunker.split_into_chunks` (default `min_words = 5`). -/

def reg_split_into_chunks (text : String) (minWords : ℕ) : List String :=
  let lines := splitOnCh '\n' text.toList
  let final := lines.foldl (regStep minWords) ⟨[], [], false⟩
  (flushChunk minWords final.chunks final.current).map String.mk

structure CsState where
  chunks : List (List Char)
  current : List (List Char)

/-- Split condition of the policy chunker: 2+ leading spaces, or a
leading capital over a non-empty open chunk; the flush itself is guarded
by a non-empty open chunk. -/

def csSplitCond (st : CsState) (line ls : List Char) : Bool :=
  (decide (2 ≤ leadWsCount line) || (headIsCapRC ls && !st.current.isEmpty))
    && !st.current.isEmpty

/-- One loop iteration of `ParagraphDocumentChunker.split_into_chunks`:
a header line is skipped entirely after flushing; otherwise split on 2+
leading spaces or a leading capital over an open chunk. -/

def csStep (minWords : ℕ) (st : CsState) (line : List Char) : CsState :=
  let ls := stripChars line
  if ls.isEmpty then st
  else if isSectionHeader ls then
    ⟨flushChunk minWords st.chunks st.current, []⟩
  else
    ⟨if csSplitCond st line ls then flushChunk minWords st.chunks st.current else st.chunks,
      (if csSplitCond st line ls then [] else st.current) ++ [ls]⟩

/-- The `ParagraphDocumentChunker.split_into_chunks` (default
`min_words = 10`). -/

def cs_split_into_chunks (text : String) (minWords : ℕ) : List String :=
  let lines := splitOnCh '\n' text.toList
  let final := lines.foldl (csStep minWords) ⟨[], []⟩
  (flushChunk minWords final.chunks final.current).map String.mk

/-- Collapse runs of whitespace into single spaces
(`re.sub(r'\s+', ' ', line)` — each run becomes one `' '`). -/

def squeeze : List Char → List Char
  | [] => []
  | [c] => [c]
  | c :: d :: cs =>
    if c = ' ' && d = ' ' then squeeze (d :: cs) else c :: squeeze (d :: cs)

def collapseToSpace (l : List Char) : List Char :=
  squeeze (l.map (fun c => if pyIsSpace c then ' ' else c))

/-- The `PDFProcessor.clean_text`: per line collapse whitespace and strip,
drop empties, re-join with newlines. -/

def clean_text (text : String) : String :=
  let cleaned := ((splitOnCh '\n' text.toList).map
    (fun l => stripChars (collapseToSpace l))).filter (fun l => !l.isEmpty)
  String.mk (joinNl cleaned)

structure PdfState where
  chunks : List (List Char)
  current : List (List Char)

/-- Split condition of `PDFProcessor.chunk_text`: section number, leading
capital, 2+ leading spaces, or previous line ending in `.`/`;`, with a
non-empty open chunk. -/

def pdfSplitCond (st : PdfState) (line ls : List Char) : Bool :=
  (startsWithNumLabel ls || headIsCapPdf ls || decide (2 ≤ leadWsCount line) ||
    prevEndsPS st.current) && !st.current.isEmpty

/-- One loop iteration of `PDFProcessor.chunk_text`: split on section
number, leading capital, 2+ leading spaces, or a previous line ending in
`.`/`;` — but unlike the other variants, the line (header or not) is
then appended to the new chunk. -/

def pdfStep (minWords : ℕ) (st : PdfState) (line : List Char) : PdfState :=
  let ls := stripChars line
  if ls.isEmpty then st
  else
    ⟨if pdfSplitCond st line ls then flushChunk minWords st.chunks st.current else st.chunks,
      (if pdfSplitCond st line ls then [] else st.current) ++ [ls]⟩

/-- The `PDFProcessor.chunk_text` (default `min_words = 10`); returns the
chunk texts (the chunk objects wrap them with ids and
`word_count = len(chunk_text.split())`). -/

def pdf_chunk_text (text : String) (minWords : ℕ) : List String :=
  let lines := splitOnCh '\n' (clean_text text).toList
  let final := lines.foldl (pdfStep minWords) ⟨[], []⟩
  (flushChunk minWords final.chunks final.current).map String.mk

/-! ### Segmenter invariants -/

def GoodLine (lines : List (List Char)) (hdrFree : Bool) (l : List Char) : Prop :=
  l ≠ [] ∧ (∃ raw ∈ lines, l = stripChars raw) ∧ (hdrFree = true → isSectionHeader l = false)

/-- An emitted chunk: reaches the word minimum, is non-empty, and is the
strip of the space-join of good lines. -/

def GoodChunk (minWords : ℕ) (lines : List (List Char)) (hdrFree : Bool)
    (c : List Char) : Prop :=
  minWords ≤ wordCount c ∧ c ≠ [] ∧
    ∃ ls, ls ≠ [] ∧ (∀ l ∈ ls, GoodLine lines hdrFree l) ∧ c = stripChars (joinSp ls)

def RegInv (mw : ℕ) (lines : List (List Char)) (st : RegState) : Prop :=
  (∀ c ∈ st.chunks, GoodChunk mw lines true c) ∧ (∀ l ∈ st.current, GoodLine lines true l)

def CsInv (mw : ℕ) (lines : List (List Char)) (st : CsState) : Prop :=
  (∀ c ∈ st.chunks, GoodChunk mw lines true c) ∧ (∀ l ∈ st.current, GoodLine lines true l)

def PdfInv (mw : ℕ) (lines : List (List Char)) (st : PdfState) : Prop :=
  (∀ c ∈ st.chunks, GoodChunk mw lines false c) ∧ (∀ l ∈ st.current, GoodLine lines false l)

/-! ## Lemmas and claim theorems -/

lemma isEmpty_true_iff {α : Type} {l : List α} : l.isEmpty = true ↔ l = [] := by
  cases l <;> simp

lemma isEmpty_false_iff {α : Type} {l : List α} : l.isEmpty = false ↔ l ≠ [] := by
  cases l <;> simp

lemma takeWhile_all_append {p : Char → Bool} {ds : List Char} (hall : ∀ c ∈ ds, p c)
    {x : Char} (hx : p x = false) (t : List Char) :
    (ds ++ x :: t).takeWhile p = ds := by
  induction ds with
  | nil => simp [List.takeWhile_cons, hx]
  | cons a as ih =>
    have ha : p a := hall a (by simp)
    simp only [List.cons_append, List.takeWhile_cons, ha, if_true]
    rw [ih (fun c hc => hall c (by simp [hc]))]

lemma takeWhile_eq_self_of_all {p : Char → Bool} {l : List Char} (hall : ∀ c ∈ l, p c) :
    l.takeWhile p = l := by
  induction l with
  | nil => rfl
  | cons a as ih =>
    simp only [List.takeWhile_cons, hall a (by simp), if_true]
    rw [ih (fun c hc => hall c (by simp [hc]))]

lemma matchCapture_good {wf : Bool} {l cap r : List Char}
    (h : matchCapture wf l = some (cap, r)) : goodCapture cap := by
  have hds : ∀ c ∈ l.takeWhile isDigitCh, isDigitCh c :=
    fun c hc => List.mem_takeWhile_imp hc
  simp only [matchCapture] at h
  split at h
  · exact absurd h (by simp)
  · rename_i hne
    have hdne : l.takeWhile isDigitCh ≠ [] := by
      intro hnil; rw [hnil] at hne; simp at hne
    have base : l.takeWhile isDigitCh = cap → goodCapture cap := by
      intro he
      exact Or.inl ⟨he ▸ hdne, fun c hc => hds c (by rw [he]; exact hc)⟩
    split at h
    · split at h
      · rename_i c r2 heq
        split at h
        · split at h
          · simp only [Option.some.injEq, Prod.mk.injEq] at h
            exact base h.1
          · rename_i hfne
            simp only [Option.some.injEq, Prod.mk.injEq] at h
            refine Or.inr ⟨l.takeWhile isDigitCh, r2.takeWhile isDigitCh, hdne, ?_, hds,
              (fun c hc => List.mem_takeWhile_imp hc), h.1.symm⟩
            intro hnil; rw [hnil] at hfne; simp at hfne
        · simp only [Option.some.injEq, Prod.mk.injEq] at h
          exact base h.1
      · simp only [Option.some.injEq, Prod.mk.injEq] at h
        exact base h.1
    · simp only [Option.some.injEq, Prod.mk.injEq] at h
      exact base h.1

lemma parseFloatChars_isSome_of_good {cap : List Char} (h : goodCapture cap) :
    (parseFloatChars cap).isSome := by
  rcases h with ⟨hne, hall⟩ | ⟨ds, fs, hds, hfs, hdall, hfall, hcap⟩
  · have h1 : List.takeWhile isDigitCh cap = cap := takeWhile_eq_self_of_all hall
    have h2 : cap.isEmpty = false := isEmpty_false_iff.mpr hne
    simp [parseFloatChars, h1, List.drop_length, h2]
  · subst hcap
    have hdot : isDigitCh '.' = false := by decide
    have h1 : List.takeWhile isDigitCh (ds ++ '.' :: fs) = ds :=
      takeWhile_all_append hdall hdot _
    have h2 : List.drop ds.length (ds ++ '.' :: fs) = '.' :: fs := by
      simp
    have h3 : List.takeWhile isDigitCh fs = fs := takeWhile_eq_self_of_all hfall
    have h4 : ds.isEmpty = false := isEmpty_false_iff.mpr hds
    simp [parseFloatChars, h1, h2, h3, h4, List.drop_length]

lemma matchPatternAt_capture {wf : Bool} {mods units : List (List Char)}
    {l cap rest : List Char}
    (h : matchPatternAt wf mods units l = some (cap, rest)) : goodCapture cap := by
  unfold matchPatternAt at h
  rw [Option.bind_eq_some] at h
  obtain ⟨pr, hpr, hmap⟩ := h
  rw [Option.map_eq_some'] at hmap
  obtain ⟨r2, _, hpair⟩ := hmap
  have h1 : pr.1 = cap := congrArg Prod.fst hpair
  have : matchCapture wf l = some (pr.1, pr.2) := by rw [Prod.mk.eta]; exact hpr
  exact h1 ▸ matchCapture_good this

lemma findallNum_good {wf : Bool} {mods units : List (List Char)} :
    ∀ (fuel : ℕ) (l cap : List Char), cap ∈ findallNum wf mods units fuel l →
      goodCapture cap := by
  intro fuel
  induction fuel with
  | zero => intro l cap h; simp [findallNum] at h
  | succ n ih =>
    intro l cap hmem
    match l with
    | [] => simp [findallNum] at hmem
    | c :: cs =>
      simp only [findallNum] at hmem
      cases hm : matchPatternAt wf mods units (c :: cs) with
      | none => rw [hm] at hmem; exact ih cs cap hmem
      | some pr =>
        obtain ⟨cp, rest⟩ := pr
        rw [hm] at hmem
        have hmem2 : cap ∈ cp :: findallNum wf mods units n rest := hmem
        rcases List.mem_cons.mp hmem2 with h | h
        · exact h ▸ matchPatternAt_capture hm
        · exact ih rest cap h

lemma extractNums_good {p : NumPattern} {text : String} {cap : List Char}
    (h : cap ∈ extractNums p text) : goodCapture cap :=
  findallNum_good _ _ cap h

lemma mapFloat_eq_some_filterMap :
    ∀ (xs : List (List Char)), (∀ x ∈ xs, (parseFloatChars x).isSome) →
      mapFloat xs = some (xs.filterMap parseFloatChars) := by
  intro xs
  induction xs with
  | nil => intro _; rfl
  | cons a as ih =>
    intro h
    obtain ⟨b, hb⟩ := Option.isSome_iff_exists.mp (h a (by simp))
    have has := ih (fun x hx => h x (by simp [hx]))
    simp [mapFloat, hb, has, List.filterMap_cons]

lemma flatMap_congr {α β : Type} {l : List α} {f g : α → List β}
    (h : ∀ a ∈ l, f a = g a) : l.flatMap f = l.flatMap g := by
  induction l with
  | nil => rfl
  | cons a as ih =>
    simp only [List.flatMap_cons, h a (by simp)]
    rw [ih (fun x hx => h x (by simp [hx]))]

lemma conceptIssues_eq_spec (p : NumPattern) (text1 text2 : String) :
    conceptIssues p text1 text2 =
      (let nums1 := extractNums p text1
       let nums2 := extractNums p text2
       if nums1.isEmpty || nums2.isEmpty then []
       else
         (nums1.filterMap parseFloatChars).flatMap fun a =>
           (nums2.filterMap parseFloatChars).filterMap fun b =>
             if a ≠ b then some (mkIssue p.concept a b) else none) := by
  unfold conceptIssues
  by_cases hempty : ((extractNums p text1).isEmpty || (extractNums p text2).isEmpty) = true
  · simp only [hempty, if_true]
  · simp only [hempty, Bool.false_eq_true, if_false]
    rw [mapFloat_eq_some_filterMap _
        (fun x hx => parseFloatChars_isSome_of_good (extractNums_good hx)),
      mapFloat_eq_some_filterMap _
        (fun x hx => parseFloatChars_isSome_of_good (extractNums_good hx))]

/-- C6: on `"Loan term is 90 kun"` vs `"Loan term is 95 kun"` the detector
returns exactly `"DAYS: Uploaded says 90.0, reference says 95.0"`; and in
general `_check_numerical_discrepancy` agrees with the spec's description:
one `"<CATEGORY>: Uploaded says <v1>, reference says <v2>"` entry per
differing pair of the cross product of same-category values, entries
joined with `" | "`, and null when no category yields a mismatch. -/

theorem check_numerical_discrepancy_spec :
    check_numerical_discrepancy "Loan term is 90 kun" "Loan term is 95 kun" =
      some "DAYS: Uploaded says 90.0, reference says 95.0" ∧
    ∀ text1 text2, check_numerical_discrepancy text1 text2 = spec_detect text1 text2 := by
  constructor
  · decide
  · intro text1 text2
    unfold check_numerical_discrepancy spec_detect
    rw [flatMap_congr (fun p _ => conceptIssues_eq_spec p text1 text2)]

/-- C10: the detector is not reflexive — a text containing both
`10 kun` and `20 kun` compared against itself yields a non-null issue,
because the cross product pairs the two distinct same-text values. -/

theorem check_numerical_discrepancy_not_reflexive :
    check_numerical_discrepancy "10 kun 20 kun" "10 kun 20 kun" =
      some ("DAYS: Uploaded says 10.0, reference says 20.0 | " ++
        "DAYS: Uploaded says 20.0, reference says 10.0") ∧
    check_numerical_discrepancy "10 kun 20 kun" "10 kun 20 kun" ≠ none := by
  refine ⟨by decide, ?_⟩
  decide

/-! ## Match Classifier (`check_against_regulations` / `check_against_policies`)

Distances are modelled as exact rationals; the two thresholds are the
literals `0.3` and `0.5` of the source (`STRONG_MATCH`, `WEAK_MATCH`). -/

/-- Python truthiness of an optional string (`if potential_issue:`). -/

lemma pyTruthy_mkMatchInfo (ch : Chunk) (t : String) (d : ℚ) :
    pyTruthy (mkMatchInfo ch t d).potential_issue =
      (mkMatchInfo ch t d).potential_issue.isSome := by
  simp only [mkMatchInfo]
  cases h : check_numerical_discrepancy ch.text t with
  | none => rfl
  | some s => by_cases hs : s = "" <;> simp [pyTruthy, hs]

/-- C1: the tier of a processed candidate is determined solely by its
distance — `< 0.3` goes to the strong-matches list, `0.3 ≤ d < 0.5` to
the weak-matches list, and `d ≥ 0.5` is a violation candidate that is
appended to the violations list iff its `potential_issue` is non-null; a
dropped violation candidate lands in no bucket and leaves the
compliance-score denominator unchanged. -/

theorem classifyOne_tiering (ch : Chunk) (t : String) (d : ℚ) (r : CheckResults) :
    (d < 3 / 10 → classifyOne ch ⟨some t, d⟩ r =
      { r with strong_matches := r.strong_matches ++ [mkMatchInfo ch t d] }) ∧
    (3 / 10 ≤ d → d < 1 / 2 → classifyOne ch ⟨some t, d⟩ r =
      { r with weak_matches := r.weak_matches ++ [mkMatchInfo ch t d] }) ∧
    (1 / 2 ≤ d → (mkMatchInfo ch t d).potential_issue.isSome → classifyOne ch ⟨some t, d⟩ r =
      { r with violations := r.violations ++ [mkMatchInfo ch t d] }) ∧
    (1 / 2 ≤ d → (mkMatchInfo ch t d).potential_issue = none →
      classifyOne ch ⟨some t, d⟩ r = r ∧
      scoreDenom (classifyOne ch ⟨some t, d⟩ r) = scoreDenom r) := by
  refine ⟨?_, ?_, ?_, ?_⟩
  · intro hd
    simp only [classifyOne]
    rw [if_pos hd]
  · intro h1 h2
    simp only [classifyOne]
    rw [if_neg (not_lt.mpr h1), if_pos h2]
  · intro h1 h2
    simp only [classifyOne]
    rw [if_neg (not_lt.mpr (le_trans (by norm_num) h1)),
      if_neg (not_lt.mpr h1),
      if_pos (by rw [pyTruthy_mkMatchInfo]; exact h2)]
  · intro h1 h2
    have : classifyOne ch ⟨some t, d⟩ r = r := by
      simp only [classifyOne]
      rw [if_neg (not_lt.mpr (le_trans (by norm_num) h1)),
        if_neg (not_lt.mpr h1),
        if_neg (by rw [pyTruthy_mkMatchInfo, h2]; simp)]
    exact ⟨this, by rw [this]⟩

theorem classifyOne_tiering_witness :
    classifyOne ⟨"c0", "no digits here"⟩ ⟨some "plain reference", 3 / 5⟩ emptyResults =
      emptyResults :=
  ((classifyOne_tiering ⟨"c0", "no digits here"⟩ "plain reference" (3 / 5)
    emptyResults).2.2.2 (by norm_num) (by with_unfolding_all decide)).1

/-- C5 (counterexample to the claim as stated): a candidate whose
reference text is the *empty string* is not skipped — with distance 0.2
it is appended to the strong-matches bucket. -/

theorem classifyOne_empty_text_not_skipped :
    classifyOne ⟨"c0", "uploaded text"⟩ ⟨some "", 1 / 5⟩ emptyResults ≠ emptyResults ∧
    (classifyOne ⟨"c0", "uploaded text"⟩ ⟨some "", 1 / 5⟩
      emptyResults).strong_matches.length = 1 := by
  exact ⟨by with_unfolding_all decide, by with_unfolding_all decide⟩

/-- C5 (amended): only a candidate whose reference text is null (`None`)
is skipped: it lands in no bucket and the classification of the
surrounding candidate list is exactly that of the list without it; an
empty-string reference text is processed normally. -/

theorem classifyOne_none_skipped (ch : Chunk) (d : ℚ) (r : CheckResults)
    (pre post : List Candidate) :
    classifyOne ch ⟨none, d⟩ r = r ∧
    classifyCands ch (pre ++ ⟨none, d⟩ :: post) r = classifyCands ch (pre ++ post) r := by
  refine ⟨rfl, ?_⟩
  unfold classifyCands
  rw [List.foldl_append, List.foldl_append, List.foldl_cons]
  rfl

/-- The per-document score exactly as §4.3 of the spec words it:
`100 * (count(strong)*1.0 + count(weak)*0.5)` over
`count(strong) + count(weak) + count(kept violations)`, rounded to two
decimal places, and `0.0` for an empty denominator. -/

theorem calculate_compliance_score_spec (r : CheckResults) :
    calculate_compliance_score r =
      spec_compliance_score r.strong_matches.length r.weak_matches.length r.violations.length := by
  unfold calculate_compliance_score spec_compliance_score scoreDenom
  by_cases h : r.strong_matches.length + r.weak_matches.length + r.violations.length = 0
  · rw [if_pos h, if_pos h]
  · rw [if_neg h, if_neg h]
    push_cast
    ring_nf

/-- C3 (counterexample to the claim as stated): handing the error result
of an unavailable regulations collection to `generate_report` does not
produce a report — the `['summary']` subscript raises `KeyError`. -/

theorem generate_report_err_crashes :
    generate_report (.err "Regulations collection not available")
      (.ok emptyResults (mkSummary emptyResults)) = none := rfl

/-- C3 (amended): an unavailable collection makes the sub-check return an
error-only result (no crash there), and `generate_report` produces a
report for every pair of *successful* sub-check results; but given an
error result on either side it fails with `KeyError` instead of
degrading gracefully. -/

theorem generate_report_amended :
    (∀ (chunks : List Chunk) (query : Chunk → List Candidate),
      check_against_regulations false chunks query =
        .err "Regulations collection not available") ∧
    (∀ (chunks : List Chunk) (query : Chunk → List Candidate),
      check_against_policies false chunks query =
        .err "Bank policies collection not available") ∧
    (∀ (r1 r2 : CheckResults) (s1 s2 : Summary),
      (generate_report (.ok r1 s1) (.ok r2 s2)).isSome) ∧
    (∀ (m : String) (o : CheckOutcome), generate_report (.err m) o = none) ∧
    (∀ (o : CheckOutcome) (m : String), generate_report o (.err m) = none) := by
  refine ⟨fun _ _ => rfl, fun _ _ => rfl, fun _ _ _ _ => rfl, fun m o => ?_, fun o m => ?_⟩
  · cases o <;> rfl
  · cases o <;> rfl

/-! ## Correction Generator (`correction_generator.py`) -/

/-- Python `str.strip()`. -/

theorem determine_severity_table (cu co : String) (a b : ℚ)
    (hu : parseFloat cu = some a) (hc : parseFloat co = some b) :
    determine_severity "percent" cu co =
      (if 5 ≤ |a - b| then "CRITICAL" else if 1 ≤ |a - b| then "HIGH" else "MEDIUM") ∧
    determine_severity "days" cu co = (if 5 ≤ |a - b| then "HIGH" else "MEDIUM") ∧
    determine_severity "months" cu co = "MEDIUM" ∧
    determine_severity "years" cu co = "MEDIUM" := by
  unfold determine_severity
  rw [hu, hc]
  exact ⟨rfl, rfl, rfl, rfl⟩

theorem determine_severity_table_witness :
    determine_severity "days" "90.0" "95.0" = "HIGH" := by
  have h := determine_severity_table "90.0" "95.0" 90 95
    (by with_unfolding_all decide) (by with_unfolding_all decide)
  have habs : |(90 : ℚ) - 95| = 5 := by
    rw [show (90 : ℚ) - 95 = -5 by norm_num, abs_neg, abs_of_nonneg (by norm_num)]
  rw [h.2.1, if_pos]
  rw [habs]

theorem generate_correction_report_dup_counterexample :
    (generate_correction_report fpNone dupReport).total_corrections_needed = 2 ∧
    (generate_correction_report fpNone dupReport).critical_corrections.length = 2 ∧
    ¬ (generate_correction_report fpNone dupReport).total_corrections_needed = 1 := by
  exact ⟨by with_unfolding_all decide, by with_unfolding_all decide,
    by with_unfolding_all decide⟩

lemma dedup_fold_invariant (cs : List CorrectionItem) :
    ∀ (seen : List (String × String × String)) (kept : List CorrectionItem),
      kept.map itemKey = seen → seen.Nodup →
      ((cs.foldl dedupStep (seen, kept)).2.map itemKey).Nodup := by
  induction cs with
  | nil =>
    intro seen kept hmap hnd
    simpa [hmap] using hnd
  | cons c cs ih =>
    intro seen kept hmap hnd
    rw [List.foldl_cons]
    by_cases hm : itemKey c ∈ seen
    · rw [show dedupStep (seen, kept) c = (seen, kept) by simp [dedupStep, hm]]
      exact ih seen kept hmap hnd
    · rw [show dedupStep (seen, kept) c = (seen ++ [itemKey c], kept ++ [c]) by
        simp [dedupStep, hm]]
      refine ih (seen ++ [itemKey c]) (kept ++ [c]) (by simp [hmap]) ?_
      simp [List.nodup_append, hnd, hm]

lemma categorizeStep_counts (corr : Correction) (rp : CorrectionReport)
    (c : CorrectionItem) : countsOf (categorizeStep corr rp c) = countsOf rp + 1 := by
  unfold categorizeStep countsOf
  by_cases h1 : c.severity = "CRITICAL"
  · simp [h1]; omega
  · by_cases h2 : c.severity = "HIGH"
    · simp [h1, h2]; omega
    · simp [h1, h2]; omega

lemma categorize_fold_counts (items : List CorrectionItem) :
    ∀ (corr : Correction) (rp : CorrectionReport),
      countsOf (items.foldl (categorizeStep corr) rp) = countsOf rp + items.length := by
  induction items with
  | nil => intro corr rp; simp
  | cons c cs ih =>
    intro corr rp
    rw [List.foldl_cons, ih, categorizeStep_counts]
    simp [Nat.add_comm, Nat.add_assoc, Nat.add_left_comm]

lemma categorize_counts (corr : Correction) (rp : CorrectionReport) :
    countsOf (categorize_correction corr rp) = countsOf rp + corr.corrections.length :=
  categorize_fold_counts corr.corrections corr rp

lemma violations_fold_counts (fp : FindPhrase) (vs : List Violation) :
    ∀ (rp : CorrectionReport),
      countsOf (vs.foldl (fun rp v => categorize_correction (extract_correct_value fp v) rp) rp) =
        countsOf rp + (vs.map (fun v => (extract_correct_value fp v).corrections.length)).sum := by
  induction vs with
  | nil => intro rp; simp
  | cons v vs ih =>
    intro rp
    rw [List.foldl_cons, ih, categorize_counts]
    simp [Nat.add_comm, Nat.add_assoc, Nat.add_left_comm]

/-- C2 (amended): the `(field, current_value, correct_value)`
deduplication is local to one violation — within a single call of
`_parse_issue_description` the emitted keys are pairwise distinct — and
the report total is additive across violations: every violation
contributes all of its own corrections, so the same triple from two
separate violations appears once per violation. -/

theorem correction_dedup_per_violation :
    (∀ (fp : FindPhrase) (issue up ref : String),
      ((parse_issue_description fp issue up ref).map itemKey).Nodup) ∧
    (∀ (fp : FindPhrase) (cr : ComplianceReportIn),
      (generate_correction_report fp cr).total_corrections_needed =
        ((cr.reg_violations ++ cr.policy_violations).map
          (fun v => (extract_correct_value fp v).corrections.length)).sum) := by
  constructor
  · intro fp issue up ref
    unfold parse_issue_description dedupCorrections
    exact dedup_fold_invariant _ [] [] rfl List.nodup_nil
  · intro fp cr
    unfold generate_correction_report
    simp only [List.map_append, List.sum_append]
    show countsOf _ = _
    rw [violations_fold_counts, violations_fold_counts]
    simp [countsOf]

/-! ## Segmenters (`chunk_regulations.py`, `chunking_script.py`,
`pdf_processor.py`) -/

/-- The `len(line) - len(line.lstrip())`: the leading-whitespace run. -/

lemma dropWhile_all {p : Char → Bool} : ∀ {l : List Char}, l.dropWhile p = [] → ∀ c ∈ l, p c := by
  intro l
  induction l with
  | nil => intro _ c hc; simp at hc
  | cons a as ih =>
    intro h c hc
    rw [List.dropWhile_cons] at h
    by_cases ha : p a
    · rw [if_pos ha] at h
      rcases List.mem_cons.mp hc with h1 | h1
      · exact h1 ▸ ha
      · exact ih h c h1
    · rw [if_neg ha] at h
      simp at h

lemma dropWhile_head_false {p : Char → Bool} :
    ∀ {l : List Char} {c : Char} {rest : List Char}, l.dropWhile p = c :: rest → p c = false := by
  intro l
  induction l with
  | nil => intro c rest h; simp at h
  | cons a as ih =>
    intro c rest h
    rw [List.dropWhile_cons] at h
    by_cases ha : p a
    · exact ih (by rw [if_pos ha] at h; exact h)
    · rw [if_neg ha] at h
      have : a = c := (List.cons.injEq .. ▸ h).1
      rw [← this]
      exact Bool.eq_false_iff.mpr ha

lemma stripChars_ne_nil {l : List Char} (h : ∃ c ∈ l, pyIsSpace c = false) :
    stripChars l ≠ [] := by
  intro hnil
  obtain ⟨c, hc, hcw⟩ := h
  unfold stripChars at hnil
  have h1 : (l.dropWhile pyIsSpace).reverse.dropWhile pyIsSpace = [] := by
    have := congrArg List.reverse hnil
    simpa using this
  have h2 : ∀ x ∈ (l.dropWhile pyIsSpace).reverse, pyIsSpace x := dropWhile_all h1
  have h3 : ∀ x ∈ l.dropWhile pyIsSpace, pyIsSpace x := by
    intro x hx; exact h2 x (List.mem_reverse.mpr hx)
  have h4 : ∀ x ∈ l, pyIsSpace x := by
    intro x hx
    rw [← List.takeWhile_append_dropWhile (p := pyIsSpace) (l := l)] at hx
    rcases List.mem_append.mp hx with h5 | h5
    · exact List.mem_takeWhile_imp h5
    · exact h3 x h5
  rw [h4 c hc] at hcw
  exact Bool.true_eq_false.mp hcw

lemma stripChars_has_nonws {raw : List Char} (h : stripChars raw ≠ []) :
    ∃ c ∈ stripChars raw, pyIsSpace c = false := by
  unfold stripChars at *
  cases hzz : (raw.dropWhile pyIsSpace).reverse.dropWhile pyIsSpace with
  | nil => rw [hzz] at h; simp at h
  | cons c rest =>
    refine ⟨c, ?_, dropWhile_head_false hzz⟩
    simp

lemma mem_joinSp {c : Char} {l : List Char} :
    ∀ {ls : List (List Char)}, l ∈ ls → c ∈ l → c ∈ joinSp ls := by
  intro ls
  induction ls with
  | nil => intro h _; simp at h
  | cons x xs ih =>
    intro hl hc
    match xs with
    | [] =>
      have : l = x := by simpa using hl
      simpa [joinSp] using this ▸ hc
    | y :: ys =>
      rcases List.mem_cons.mp hl with h1 | h1
      · show c ∈ x ++ ' ' :: joinSp (y :: ys)
        exact List.mem_append.mpr (Or.inl (h1 ▸ hc))
      · show c ∈ x ++ ' ' :: joinSp (y :: ys)
        exact List.mem_append.mpr (Or.inr (List.mem_cons.mpr (Or.inr (ih h1 hc))))

lemma one_le_wordCount {x : List Char} (h : ∃ c ∈ x, pyIsSpace c = false) :
    1 ≤ wordCount x := by
  induction x with
  | nil => simp at h
  | cons a as ih =>
    obtain ⟨c, hc, hcw⟩ := h
    by_cases ha : pyIsSpace a
    · rw [wordCount, if_pos ha]
      rcases List.mem_cons.mp hc with h1 | h1
      · have : pyIsSpace a = false := h1 ▸ hcw
        rw [ha] at this
        exact absurd this (by simp)
      · exact ih ⟨c, h1, hcw⟩
    · rw [wordCount, if_neg ha]
      omega

/-- A line as it may appear inside an open chunk: non-empty, the strip of
some input line, and (for the header-excluding variants) not a section
header. -/

lemma flushChunk_good {mw : ℕ} {lines : List (List Char)} {hdrFree : Bool}
    {chunks current : List (List Char)}
    (hch : ∀ c ∈ chunks, GoodChunk mw lines hdrFree c)
    (hcur : ∀ l ∈ current, GoodLine lines hdrFree l) :
    ∀ c ∈ flushChunk mw chunks current, GoodChunk mw lines hdrFree c := by
  intro c hc
  unfold flushChunk at hc
  by_cases hemp : current.isEmpty
  · rw [if_pos hemp] at hc; exact hch c hc
  · rw [if_neg hemp] at hc
    by_cases hwc : mw ≤ wordCount (stripChars (joinSp current))
    · rw [if_pos hwc] at hc
      rcases List.mem_append.mp hc with h | h
      · exact hch c h
      · have hceq : c = stripChars (joinSp current) := by simpa using h
        subst hceq
        obtain ⟨l1, hl1⟩ : ∃ l1, l1 ∈ current := by
          cases current with
          | nil => simp at hemp
          | cons a as => exact ⟨a, by simp⟩
        obtain ⟨hne1, ⟨raw, _, hstr⟩, _⟩ := hcur l1 hl1
        have hnonws : ∃ ch ∈ l1, pyIsSpace ch = false := by
          rw [hstr]
          exact stripChars_has_nonws (hstr ▸ hne1)
        obtain ⟨ch, hchmem, hchw⟩ := hnonws
        refine ⟨hwc, stripChars_ne_nil ⟨ch, mem_joinSp hl1 hchmem, hchw⟩,
          current, ?_, hcur, rfl⟩
        intro h0
        rw [h0] at hemp
        simp at hemp
    · rw [if_neg hwc] at hc; exact hch c hc

lemma regStep_inv {mw : ℕ} {lines : List (List Char)} {st : RegState} {line : List Char}
    (hline : line ∈ lines) (h : RegInv mw lines st) : RegInv mw lines (regStep mw st line) := by
  obtain ⟨hch, hcur⟩ := h
  unfold regStep
  by_cases hemp : (stripChars line).isEmpty
  · rw [if_pos hemp]; exact ⟨hch, hcur⟩
  · rw [if_neg hemp]
    by_cases hhdr : isSectionHeader (stripChars line)
    · rw [if_pos hhdr]
      exact ⟨flushChunk_good hch hcur, by intro l hl; simp at hl⟩
    · rw [if_neg hhdr]
      have hgl : GoodLine lines true (stripChars line) :=
        ⟨fun h0 => by rw [h0] at hemp; simp at hemp, ⟨line, hline, rfl⟩,
          fun _ => Bool.eq_false_iff.mpr hhdr⟩
      constructor
      · intro c hc
        by_cases hs : regSplitCond st line = true
        · simp only [hs, if_true] at hc
          exact flushChunk_good hch hcur c hc
        · simp only [Bool.not_eq_true] at hs
          simp only [hs, Bool.false_eq_true, if_false] at hc
          exact hch c hc
      · intro l hl
        by_cases hs : regSplitCond st line = true
        · simp only [hs, if_true] at hl
          have : l = stripChars line := by simpa using hl
          exact this ▸ hgl
        · simp only [Bool.not_eq_true] at hs
          simp only [hs, Bool.false_eq_true, if_false] at hl
          rcases List.mem_append.mp hl with h1 | h1
          · exact hcur l h1
          · have : l = stripChars line := by simpa using h1
            exact this ▸ hgl

lemma csStep_inv {mw : ℕ} {lines : List (List Char)} {st : CsState} {line : List Char}
    (hline : line ∈ lines) (h : CsInv mw lines st) : CsInv mw lines (csStep mw st line) := by
  obtain ⟨hch, hcur⟩ := h
  unfold csStep
  by_cases hemp : (stripChars line).isEmpty
  · rw [if_pos hemp]; exact ⟨hch, hcur⟩
  · rw [if_neg hemp]
    by_cases hhdr : isSectionHeader (stripChars line)
    · rw [if_pos hhdr]
      exact ⟨flushChunk_good hch hcur, by intro l hl; simp at hl⟩
    · rw [if_neg hhdr]
      have hgl : GoodLine lines true (stripChars line) :=
        ⟨fun h0 => by rw [h0] at hemp; simp at hemp, ⟨line, hline, rfl⟩,
          fun _ => Bool.eq_false_iff.mpr hhdr⟩
      constructor
      · intro c hc
        by_cases hs : csSplitCond st line (stripChars line) = true
        · simp only [hs, if_true] at hc
          exact flushChunk_good hch hcur c hc
        · simp only [Bool.not_eq_true] at hs
          simp only [hs, Bool.false_eq_true, if_false] at hc
          exact hch c hc
      · intro l hl
        by_cases hs : csSplitCond st line (stripChars line) = true
        · simp only [hs, if_true] at hl
          have : l = stripChars line := by simpa using hl
          exact this ▸ hgl
        · simp only [Bool.not_eq_true] at hs
          simp only [hs, Bool.false_eq_true, if_false] at hl
          rcases List.mem_append.mp hl with h1 | h1
          · exact hcur l h1
          · have : l = stripChars line := by simpa using h1
            exact this ▸ hgl

lemma pdfStep_inv {mw : ℕ} {lines : List (List Char)} {st : PdfState} {line : List Char}
    (hline : line ∈ lines) (h : PdfInv mw lines st) : PdfInv mw lines (pdfStep mw st line) := by
  obtain ⟨hch, hcur⟩ := h
  unfold pdfStep
  by_cases hemp : (stripChars line).isEmpty
  · rw [if_pos hemp]; exact ⟨hch, hcur⟩
  · rw [if_neg hemp]
    have hgl : GoodLine lines false (stripChars line) :=
      ⟨fun h0 => by rw [h0] at hemp; simp at hemp, ⟨line, hline, rfl⟩, by simp⟩
    constructor
    · intro c hc
      by_cases hs : pdfSplitCond st line (stripChars line) = true
      · simp only [hs, if_true] at hc
        exact flushChunk_good hch hcur c hc
      · simp only [Bool.not_eq_true] at hs
        simp only [hs, Bool.false_eq_true, if_false] at hc
        exact hch c hc
    · intro l hl
      by_cases hs : pdfSplitCond st line (stripChars line) = true
      · simp only [hs, if_true] at hl
        have : l = stripChars line := by simpa using hl
        exact this ▸ hgl
      · simp only [Bool.not_eq_true] at hs
        simp only [hs, Bool.false_eq_true, if_false] at hl
        rcases List.mem_append.mp hl with h1 | h1
        · exact hcur l h1
        · have : l = stripChars line := by simpa using h1
          exact this ▸ hgl

lemma foldl_inv {σ : Type} {Inv : σ → Prop} {step : σ → List Char → σ}
    {lines : List (List Char)}
    (hstep : ∀ st line, line ∈ lines → Inv st → Inv (step st line)) :
    ∀ (L : List (List Char)), (∀ l ∈ L, l ∈ lines) → ∀ st, Inv st → Inv (L.foldl step st) := by
  intro L
  induction L with
  | nil => intro _ st h; exact h
  | cons x xs ih =>
    intro hsub st h
    rw [List.foldl_cons]
    exact ih (fun l hl => hsub l (by simp [hl])) _ (hstep st x (hsub x (by simp)) h)

lemma reg_split_good (text : String) (mw : ℕ) :
    ∀ s ∈ reg_split_into_chunks text mw,
      GoodChunk mw (splitOnCh '\n' text.toList) true s.toList := by
  intro s hs
  unfold reg_split_into_chunks at hs
  obtain ⟨c, hc, hmk⟩ := List.mem_map.mp hs
  have hinv : RegInv mw (splitOnCh '\n' text.toList)
      ((splitOnCh '\n' text.toList).foldl (regStep mw) ⟨[], [], false⟩) := by
    refine foldl_inv (fun st line hline h => regStep_inv hline h) _ (fun l hl => hl) _ ?_
    exact ⟨by intro c h; simp at h, by intro l h; simp at h⟩
  have := flushChunk_good hinv.1 hinv.2 c hc
  have hts : s.toList = c := by rw [← hmk]; rfl
  rw [hts]
  exact this

lemma cs_split_good (text : String) (mw : ℕ) :
    ∀ s ∈ cs_split_into_chunks text mw,
      GoodChunk mw (splitOnCh '\n' text.toList) true s.toList := by
  intro s hs
  unfold cs_split_into_chunks at hs
  obtain ⟨c, hc, hmk⟩ := List.mem_map.mp hs
  have hinv : CsInv mw (splitOnCh '\n' text.toList)
      ((splitOnCh '\n' text.toList).foldl (csStep mw) ⟨[], []⟩) := by
    refine foldl_inv (fun st line hline h => csStep_inv hline h) _ (fun l hl => hl) _ ?_
    exact ⟨by intro c h; simp at h, by intro l h; simp at h⟩
  have := flushChunk_good hinv.1 hinv.2 c hc
  have hts : s.toList = c := by rw [← hmk]; rfl
  rw [hts]
  exact this

lemma pdf_chunk_good (text : String) (mw : ℕ) :
    ∀ s ∈ pdf_chunk_text text mw,
      GoodChunk mw (splitOnCh '\n' (clean_text text).toList) false s.toList := by
  intro s hs
  unfold pdf_chunk_text at hs
  obtain ⟨c, hc, hmk⟩ := List.mem_map.mp hs
  have hinv : PdfInv mw (splitOnCh '\n' (clean_text text).toList)
      ((splitOnCh '\n' (clean_text text).toList).foldl (pdfStep mw) ⟨[], []⟩) := by
    refine foldl_inv (fun st line hline h => pdfStep_inv hline h) _ (fun l hl => hl) _ ?_
    exact ⟨by intro c h; simp at h, by intro l h; simp at h⟩
  have := flushChunk_good hinv.1 hinv.2 c hc
  have hts : s.toList = c := by rw [← hmk]; rfl
  rw [hts]
  exact this

lemma string_ne_empty_of_toList {s : String} (h : s.toList ≠ []) : s ≠ "" := by
  intro h0
  rw [h0] at h
  exact h rfl

/-- C9: in all three segmenter variants (`chunk_regulations.py`,
`chunking_script.py`, `pdf_processor.py`), every emitted chunk has a word
count of at least `min_words` and is never the empty string; and an input
whose fragments never reach `min_words` yields zero chunks rather than an
error. -/

theorem segmenters_min_words (text : String) (minWords : ℕ) :
    (∀ s ∈ reg_split_into_chunks text minWords,
      minWords ≤ wordCount s.toList ∧ s ≠ "") ∧
    (∀ s ∈ cs_split_into_chunks text minWords,
      minWords ≤ wordCount s.toList ∧ s ≠ "") ∧
    (∀ s ∈ pdf_chunk_text text minWords,
      minWords ≤ wordCount s.toList ∧ s ≠ "") ∧
    reg_split_into_chunks "too short" 5 = [] ∧
    cs_split_into_chunks "too short" 5 = [] ∧
    pdf_chunk_text "too short" 5 = [] := by
  refine ⟨?_, ?_, ?_, by decide, by decide, by decide⟩
  · intro s hs
    obtain ⟨hwc, hne, _⟩ := reg_split_good text minWords s hs
    exact ⟨hwc, string_ne_empty_of_toList hne⟩
  · intro s hs
    obtain ⟨hwc, hne, _⟩ := cs_split_good text minWords s hs
    exact ⟨hwc, string_ne_empty_of_toList hne⟩
  · intro s hs
    obtain ⟨hwc, hne, _⟩ := pdf_chunk_good text minWords s hs
    exact ⟨hwc, string_ne_empty_of_toList hne⟩

theorem segmenters_min_words_witness :
    5 ≤ wordCount ("one two three four five" : String).toList ∧
      ("one two three four five" : String) ≠ "" :=
  (segmenters_min_words "one two three four five" 5).1 "one two three four five" (by decide)

/-- C4 (counterexample to the claim as stated): `pdf_processor.chunk_text`
does NOT exclude section-header lines — an input consisting of the header
line `"1.2.3. Definitions ..."` is emitted verbatim as a chunk's text. -/

theorem pdf_chunk_includes_header :
    pdf_chunk_text "1.2.3. Definitions of the terms used in this very document here" 10 =
      ["1.2.3. Definitions of the terms used in this very document here"] ∧
    isSectionHeader
      "1.2.3. Definitions of the terms used in this very document here".toList = true := by
  exact ⟨by decide, by decide⟩

/-- C4 (amended): in `chunk_regulations.split_into_chunks` and
`chunking_script.split_into_chunks` a section-header line is excluded
from all chunk text (it only flushes the open chunk): every emitted chunk
is the strip of a space-join of stripped non-blank input lines none of
which matches the header pattern.  In `pdf_processor.chunk_text` a
section-numbered line triggers a flush but is itself included in the next
chunk's text. -/

theorem section_headers_excluded (text : String) (minWords : ℕ) :
    (∀ s ∈ reg_split_into_chunks text minWords, ∃ ls : List (List Char), ls ≠ [] ∧
      (∀ l ∈ ls, l ≠ [] ∧ (∃ raw ∈ splitOnCh '\n' text.toList, l = stripChars raw) ∧
        isSectionHeader l = false) ∧
      s.toList = stripChars (joinSp ls)) ∧
    (∀ s ∈ cs_split_into_chunks text minWords, ∃ ls : List (List Char), ls ≠ [] ∧
      (∀ l ∈ ls, l ≠ [] ∧ (∃ raw ∈ splitOnCh '\n' text.toList, l = stripChars raw) ∧
        isSectionHeader l = false) ∧
      s.toList = stripChars (joinSp ls)) := by
  constructor
  · intro s hs
    obtain ⟨_, _, ls, hne, hall, heq⟩ := reg_split_good text minWords s hs
    exact ⟨ls, hne, fun l hl =>
      ⟨(hall l hl).1, (hall l hl).2.1, (hall l hl).2.2 rfl⟩, heq⟩
  · intro s hs
    obtain ⟨_, _, ls, hne, hall, heq⟩ := cs_split_good text minWords s hs
    exact ⟨ls, hne, fun l hl =>
      ⟨(hall l hl).1, (hall l hl).2.1, (hall l hl).2.2 rfl⟩, heq⟩

theorem section_headers_excluded_witness :
    ∃ ls : List (List Char), ls ≠ [] ∧
      (∀ l ∈ ls, l ≠ [] ∧
        (∃ raw ∈ splitOnCh '\n' ("hello world one two three\n1.2. Foo" : String).toList,
          l = stripChars raw) ∧
        isSectionHeader l = false) ∧
      ("hello world one two three" : String).toList = stripChars (joinSp ls) :=
  (section_headers_excluded "hello world one two three\n1.2. Foo" 5).1
    "hello world one two three" (by decide)

end ComplianceSentinel
